import Mathlib

/-
Verification of the benchmark-aggregation pipeline of
`plotting_comprehensive.py` (Point-Cluster-Distance-Calculations-and-Visualizer).

The script loads a CSV of benchmark rows and renders charts.  This file embeds
the data-preparation/aggregation pipeline (load → derive → aggregate) as pure
Lean functions and proves the specification's claims about it.

Modelling conventions:
- a pandas dataframe row is a `Record`; a dataframe is a `List Record`;
- numeric columns (`ExecutionTime(ms)`, `MemoryUsage(MB)`) are embedded as `ℚ`
  (exact arithmetic abstraction of the script's floating point);
- `df.groupby(keys)[col].mean()` is embedded as: the grouped table maps a key
  tuple to `some (sum / count)` when at least one row matches, `none` when no
  row matches (a key with no rows is absent from a pandas groupby result);
- a filtered dataframe `df[mask]` is `List.filter`;
- `pd.merge(..., on='Size')` (an inner join) shows up as requiring both sides'
  means to be `some` at the same size;
- Python's `'CLOSEST_PAIR' in x` substring test is `containsStr`;
- Python's `x.split('_')` is `tokensOf` and `'_'.join` is `joinU`.
-/

/-- Boolean test that the first character list is an initial segment of the
second; helper for the substring test. -/
def startsWithL : List Char → List Char → Bool
  | [], _ => true
  | _ :: _, [] => false
  | a :: as, b :: bs => a = b && startsWithL as bs

/-- Boolean substring containment on character lists, mirroring Python's
`needle in hay` for strings. -/
def containsSubL (needle : List Char) : List Char → Bool
  | [] => needle.isEmpty
  | c :: cs => startsWithL needle (c :: cs) || containsSubL needle cs

/-- Python's `needle in hay` substring test on strings
(used by `df['Algorithm'].str.contains(...)` and the group-derivation lambda
in `load_and_prepare_data`, src lines 64-66 and the group filters). -/
def containsStr (needle hay : String) : Bool := containsSubL needle.data hay.data

/-- Python's `s.split('_')` on the underlying character list: split at every
underscore, keeping empty pieces, never returning an empty list. -/
def splitUnderscore : List Char → List (List Char)
  | [] => [[]]
  | c :: cs =>
    let rest := splitUnderscore cs
    if c = '_' then [] :: rest
    else
      match rest with
      | [] => [[c]]
      | t :: ts => (c :: t) :: ts

/-- Python's `x.split('_')` as a list of strings. -/
def tokensOf (s : String) : List String := (splitUnderscore s.data).map (fun l => ⟨l⟩)

/-- Python's `'_'.join(ts)`. -/
def joinU : List String → String
  | [] => ""
  | [t] => t
  | t :: ts => t ++ "_" ++ joinU ts

/-- One row of the benchmark CSV after numeric coercion
(`load_and_prepare_data`, src lines 56-61). -/
structure Record where
  algorithm : String
  dimension : String
  size : Nat
  distribution : String
  executionTimeMs : ℚ
  memoryUsageMb : ℚ
deriving DecidableEq

/-- Derived `AlgorithmGroup` column (src lines 64-66):
`'Closest Pair' if 'CLOSEST_PAIR' in x else 'Diameter'`. -/
def algorithmGroup (a : String) : String :=
  if containsStr "CLOSEST_PAIR" a then "Closest Pair" else "Diameter"

/-- Derived `AlgorithmType` column (src lines 69-71):
`x.split('_')[0] if x.split('_')[0] == 'DIAMETER' else '_'.join(x.split('_')[0:2])`. -/
def algorithmType (a : String) : String :=
  let toks := tokensOf a
  if toks.headD "" = "DIAMETER" then toks.headD "" else joinU (toks.take 2)

/-- The specification's words for `algorithmFamily`: "the id stripped of its
trailing variant suffix", i.e. everything before the last separator.  Stated
here only to compare with the source's `algorithmType`. -/
def specAlgorithmFamily (a : String) : String := joinU ((tokensOf a).dropLast)

/-- Derived `AlgorithmVariant` column (src lines 74-76): the token after the
last underscore (both branches of the source's conditional are the same
expression `x.split('_')[-1]`). -/
def algorithmVariant (a : String) : String := ((tokensOf a).getLast?).getD ""

/-- Derived `AlgorithmName` column (src lines 82-91): the module-level
`algorithm_names` dict lookup with the raw id as fallback,
`algorithm_names.get(x, x)`. -/
def algName (a : String) : String :=
  if a = "CLOSEST_PAIR_NAIVE" then "Naive O(n²)"
  else if a = "CLOSEST_PAIR_EFFICIENT" then "Divide & Conquer"
  else if a = "CLOSEST_PAIR_KDTREE" then "KD-Tree"
  else if a = "CLOSEST_PAIR_ADAPTIVE" then "Adaptive"
  else if a = "DIAMETER_NAIVE" then "Naive O(n²)"
  else if a = "DIAMETER_CONCURRENT" then "Concurrent"
  else if a = "DIAMETER_QUICKHULL" then "QuickHull"
  else a

/-- Result of `np.log10` on one value: numpy returns NaN below zero and
negative infinity at zero (each with a RuntimeWarning, not an exception), and
a finite float above zero.  The finite case records the positive argument,
since only definedness matters to the claims, not the transcendental value. -/
inductive NpLog where
  | nan : NpLog
  | negInf : NpLog
  | logOf : ℚ → NpLog
deriving DecidableEq

/-- `np.log10(x)` on one value (src line 79 applies it to the whole column). -/
def npLog10 (x : ℚ) : NpLog :=
  if x < 0 then NpLog.nan else if x = 0 then NpLog.negInf else NpLog.logOf x

/-- The field-derivation step for the `LogExecutionTime` column
(`df['LogExecutionTime'] = np.log10(df['ExecutionTime(ms)'])`, src line 79).
The step is embedded in `Except` so that "fails with an error" is expressible;
numpy's vectorised `log10` never raises, so the embedding always returns
`Except.ok`. -/
def deriveLogColumn (rs : List Record) : Except String (List NpLog) :=
  Except.ok (rs.map (fun r => npLog10 r.executionTimeMs))

/-- Mean of `v` over the rows of `rs` satisfying `p`: the generic
`df[mask].groupby(keys)[col].mean()` cell.  `none` models a group key absent
from the grouped table (pandas produces no row for an empty group). -/
def meanBy (rs : List Record) (p : Record → Bool) (v : Record → ℚ) : Option ℚ :=
  let g := rs.filter p
  if g = [] then none else some ((g.map v).sum / (g.length : ℚ))

/-- Cell of `df.groupby(['Algorithm','AlgorithmName','Dimension','Size',
'Distribution'])['ExecutionTime(ms)'].mean()` (src line 324): the mean
execution time of algorithm `a` in dimension `d` at size `n` under
distribution `dist` (grouping by the derived `AlgorithmName` is redundant
because it is a function of `Algorithm`). -/
def meanExecTime (rs : List Record) (a d : String) (n : Nat) (dist : String) : Option ℚ :=
  meanBy rs
    (fun r => r.algorithm == a && r.dimension == d && r.size == n && r.distribution == dist)
    (fun r => r.executionTimeMs)

/-- `max_size = df['Size'].max(); largest_data = df[df['Size'] == max_size]`
(src lines 162-164 and 476-478).  On an empty frame pandas' `max` is NaN and
the equality mask selects nothing, so the empty case yields the empty list. -/
def filterToMaxSize (rs : List Record) : List Record :=
  match (rs.map (fun r => r.size)).max? with
  | none => []
  | some m => rs.filter (fun r => r.size == m)

/-- The speedup mapping computed by the inner loops of `plot_relative_speedup`
(src lines 346-374) for one dimension `d`, one distribution `dist` and
baseline `naive`, over the already group-filtered rows `rs`: the candidate
equal to the baseline is skipped (`continue`, src lines 356-357); otherwise an
entry exists at size `n` exactly when the inner `pd.merge` on `Size` pairs a
mean for the candidate with a mean for the baseline, and its value is
`ExecutionTime(ms)_naive / ExecutionTime(ms)` (src line 370). -/
def speedupRelativeToBaseline (rs : List Record) (naive d dist : String) :
    String × Nat → Option ℚ :=
  fun an =>
    if an.1 = naive then none
    else
      match meanExecTime rs an.1 d an.2 dist, meanExecTime rs naive d an.2 dist with
      | some ta, some tn => some (tn / ta)
      | _, _ => none

/-- The per-(dimension, group) speedup view of `plot_relative_speedup`
(src lines 327-374): the grouped rows are filtered to dimension `d` and to
algorithms containing `marker`; if the filtered frame is empty or has no row
for the `naive` baseline the view is skipped (`continue`, src lines 341-343),
modelled as `none`; otherwise, for each distribution, the speedup mapping. -/
def speedupViewForGroup (rs : List Record) (d marker naive : String) :
    Option (String → String × Nat → Option ℚ) :=
  let gd := rs.filter (fun r => r.dimension == d && containsStr marker r.algorithm)
  if gd.isEmpty || !(gd.any (fun r => r.algorithm == naive)) then none
  else some (fun dist => speedupRelativeToBaseline gd naive d dist)

/-- Key tuples of `df.groupby(keys)...mean().reset_index()`: the distinct key
values occurring in the frame (pandas emits one row per distinct key).  The
order pandas uses (sorted keys) is immaterial to the claims, which concern
which keys occur and that each occurs once. -/
def groupedKeys {κ : Type} [DecidableEq κ] (rs : List Record) (key : Record → κ) : List κ :=
  (rs.map key).dedup

/-- Key of the groupby in `plot_distribution_comparison` (src line 167):
`(Algorithm, Dimension, Distribution)`. -/
def keyADDist (r : Record) : String × String × String :=
  (r.algorithm, r.dimension, r.distribution)

/-- Key of the groupby in `plot_performance_heatmap` (src line 287):
`(Algorithm, AlgorithmName, Dimension, Size)`, with `AlgorithmName` the
derived column `algName`. -/
def keyHeat (r : Record) : String × String × String × Nat :=
  (r.algorithm, algName r.algorithm, r.dimension, r.size)

/-- The (index, column) pairs fed to the pivot of
`plot_distribution_comparison` (src lines 163-185): group at max size by
`(Algorithm, Dimension, Distribution)`, filter to dimension `d` and to
algorithms containing `marker`, pivot on index `Algorithm`, columns
`Distribution`. -/
def pivotKeysDistComp (rs : List Record) (d marker : String) : List (String × String) :=
  ((groupedKeys (filterToMaxSize rs) keyADDist).filter
      (fun k => k.2.1 == d && containsStr marker k.1)).map (fun k => (k.1, k.2.2))

/-- The (index, column) pairs fed to the pivot of `plot_distribution_dashboard`
(src lines 477-490): filter to max size, dimension `d` and `marker`, group by
`(Algorithm, Distribution)`, pivot on the same two keys. -/
def pivotKeysDashboard (rs : List Record) (d marker : String) : List (String × String) :=
  groupedKeys
    (((filterToMaxSize rs).filter (fun r => r.dimension == d)).filter
      (fun r => containsStr marker r.algorithm))
    (fun r => (r.algorithm, r.distribution))

/-- The (index, column) pairs fed to the pivot of `plot_performance_heatmap`
(src lines 284-305): filter to `Distribution == 'UNIFORM'`, group by
`(Algorithm, AlgorithmName, Dimension, Size)`, filter to dimension `d` and
`marker`, pivot on index `Size`, columns `AlgorithmName`. -/
def pivotKeysHeatmap (rs : List Record) (d marker : String) : List (Nat × String) :=
  ((groupedKeys (rs.filter (fun r => r.distribution == "UNIFORM")) keyHeat).filter
      (fun k => k.2.2.1 == d && containsStr marker k.1)).map (fun k => (k.2.2.2, k.2.1))

/-- Value of the `plot_distribution_comparison` pivot table at cell
(`a`, `dist`) for dimension `d` and group marker `marker` (src lines 163-185). -/
def pivotDistCell (rs : List Record) (d marker a dist : String) : Option ℚ :=
  if containsStr marker a then
    meanBy (filterToMaxSize rs)
      (fun r => r.algorithm == a && r.dimension == d && r.distribution == dist)
      (fun r => r.executionTimeMs)
  else none

/-- Value of the `plot_performance_heatmap` pivot table at cell (`n`, name of
`a`) for dimension `d` and group marker `marker` (src lines 284-305). -/
def heatmapCell (rs : List Record) (d marker a : String) (n : Nat) : Option ℚ :=
  if containsStr marker a then
    meanBy (rs.filter (fun r => r.distribution == "UNIFORM"))
      (fun r => r.algorithm == a && r.dimension == d && r.size == n)
      (fun r => r.executionTimeMs)
  else none

/-- Control flow of `main` (src lines 586-611): the plot calls run in sequence
inside one `try`, and the single `except` catches the first exception, prints
it and ends the run.  Each list element is the outcome of one view's
computation; the result is the outputs of the views that ran to completion,
together with the reported error, if any.  A view after a failing one is never
attempted. -/
def mainViews {E A : Type} : List (Except E A) → List A × Option E
  | [] => ([], none)
  | Except.ok a :: rest =>
    let p := mainViews rest
    (a :: p.1, p.2)
  | Except.error e :: _ => ([], some e)

/-- Row 1 of the spec's speedup scenario:
(CLOSEST_PAIR_NAIVE, TWO_D, 100, UNIFORM, 10.0, 5.0). -/
def rNaive : Record := ⟨"CLOSEST_PAIR_NAIVE", "TWO_D", 100, "UNIFORM", 10, 5⟩

/-- Row 2 of the spec's speedup scenario:
(CLOSEST_PAIR_KDTREE, TWO_D, 100, UNIFORM, 2.0, 5.0). -/
def rKd : Record := ⟨"CLOSEST_PAIR_KDTREE", "TWO_D", 100, "UNIFORM", 2, 5⟩

/-- The spec's two-row scenario input. -/
def exRows : List Record := [rNaive, rKd]

/-- A record with execution time zero, exercising `np.log10` at zero. -/
def rZero : Record := ⟨"CLOSEST_PAIR_NAIVE", "TWO_D", 100, "UNIFORM", 0, 5⟩

/-- A `some` result of `List.max?` on naturals is a member and an upper bound. -/
theorem maxq_spec {l : List Nat} {m : Nat} (h : l.max? = some m) :
    m ∈ l ∧ ∀ x ∈ l, x ≤ m :=
  (List.max?_eq_some_iff (fun a => Nat.le_refl a) (fun a b => max_choice a b)
    (fun _ _ _ => Nat.max_le)).mp h

/-- `List.max?` on naturals is invariant under permutation. -/
theorem maxq_perm {l l' : List Nat} (h : l.Perm l') : l.max? = l'.max? := by
  cases hq : l.max? with
  | none =>
    have hl : l = [] := List.max?_eq_none_iff.mp hq
    have hl' : l' = [] := (hl ▸ h).symm.eq_nil
    simp [hl']
  | some m =>
    obtain ⟨hmem, hle⟩ := maxq_spec hq
    cases hq' : l'.max? with
    | none =>
      have hl' : l' = [] := List.max?_eq_none_iff.mp hq'
      exact absurd (h.mem_iff.mp hmem) (by simp [hl'])
    | some m' =>
      obtain ⟨hmem', hle'⟩ := maxq_spec hq'
      exact congrArg some (Nat.le_antisymm (hle' m (h.mem_iff.mp hmem))
        (hle m' (h.mem_iff.mpr hmem')))

/-- Group means are permutation invariant: the mean of any group of any value
column does not depend on row order. -/
theorem meanBy_perm {rs rs' : List Record} (h : rs.Perm rs')
    (p : Record → Bool) (v : Record → ℚ) : meanBy rs p v = meanBy rs' p v := by
  have hf := h.filter p
  unfold meanBy
  by_cases he : rs.filter p = []
  · have he' : rs'.filter p = [] := (he ▸ hf).symm.eq_nil
    simp [he, he']
  · have he' : rs'.filter p ≠ [] := fun hh => he (hh ▸ hf).eq_nil
    rw [if_neg he, if_neg he', (hf.map v).sum_eq, hf.length_eq]

/-- The max-size filter is permutation invariant up to row order: reordering
the input reorders the selected rows but selects the same multiset. -/
theorem filterToMaxSize_perm {rs rs' : List Record} (h : rs.Perm rs') :
    (filterToMaxSize rs).Perm (filterToMaxSize rs') := by
  have hm : (rs.map (fun r => r.size)).max? = (rs'.map (fun r => r.size)).max? :=
    maxq_perm (h.map _)
  unfold filterToMaxSize
  rw [hm]
  cases (rs'.map (fun r => r.size)).max? with
  | none => exact List.Perm.refl _
  | some m => exact h.filter _

set_option maxHeartbeats 2000000 in
/-- Within the Closest Pair group (ids containing `CLOSEST_PAIR`), the derived
`AlgorithmName` determines the raw id: the four table entries for that group
have pairwise distinct friendly names, no friendly name itself contains
`CLOSEST_PAIR`, and ids outside the table fall back to themselves. -/
theorem algName_inj_cp {a b : String} (ha : containsStr "CLOSEST_PAIR" a = true)
    (hb : containsStr "CLOSEST_PAIR" b = true) (h : algName a = algName b) : a = b := by
  unfold algName at h
  split_ifs at h <;> subst_vars <;>
    first
      | rfl
      | exact h
      | exact absurd ha (by decide)
      | exact absurd hb (by decide)
      | exact absurd h (by decide)

set_option maxHeartbeats 2000000 in
/-- Within the Diameter group (ids containing `DIAMETER`), the derived
`AlgorithmName` determines the raw id, by the same reasoning as for the
Closest Pair group. -/
theorem algName_inj_dm {a b : String} (ha : containsStr "DIAMETER" a = true)
    (hb : containsStr "DIAMETER" b = true) (h : algName a = algName b) : a = b := by
  unfold algName at h
  split_ifs at h <;> subst_vars <;>
    first
      | rfl
      | exact h
      | exact absurd ha (by decide)
      | exact absurd hb (by decide)
      | exact absurd h (by decide)

/-- C6: for every record set, `filterToMaxSize` returns exactly the subset of
records whose size equals the maximum size observed across the whole dataset
(one global maximum), and on the empty record set it returns the empty result
without raising an error. -/
theorem filterToMaxSize_spec :
    filterToMaxSize ([] : List Record) = [] ∧
    ∀ (rs : List Record) (r : Record),
      r ∈ filterToMaxSize rs ↔ (r ∈ rs ∧ ∀ r' ∈ rs, r'.size ≤ r.size) := by
  refine ⟨rfl, ?_⟩
  intro rs r
  unfold filterToMaxSize
  cases hq : (rs.map (fun r => r.size)).max? with
  | none =>
    have hrs : rs = [] := List.map_eq_nil_iff.mp (List.max?_eq_none_iff.mp hq)
    simp [hrs]
  | some m =>
    obtain ⟨hmem, hle⟩ := maxq_spec hq
    constructor
    · intro hr
      obtain ⟨hrs, hsz⟩ := List.mem_filter.mp hr
      have hsz' : r.size = m := by simpa using hsz
      exact ⟨hrs, fun r' hr' => hsz' ▸ hle r'.size (List.mem_map_of_mem _ hr')⟩
    · rintro ⟨hrs, hmax⟩
      obtain ⟨r'', hr'', hsz''⟩ := List.mem_map.mp hmem
      have h1 : m ≤ r.size := hsz'' ▸ hmax r'' hr''
      have h2 : r.size ≤ m := hle r.size (List.mem_map_of_mem _ hrs)
      exact List.mem_filter.mpr ⟨hrs, by simp [Nat.le_antisymm h2 h1]⟩

/-- C2: the pairing of a candidate algorithm's per-size means with the
baseline's per-size means in the speedup computation is an inner join on size:
the result has an entry at `(a, n)` exactly when `a` is not the baseline and
both the candidate and the baseline have an observation (a grouped mean) at
size `n`; a size with no baseline measurement is dropped, never divided by a
sentinel, and a size present only for the baseline is likewise absent for
every other algorithm. -/
theorem speedup_inner_join_on_size :
    ∀ (rs : List Record) (naive d dist a : String) (n : Nat),
      (speedupRelativeToBaseline rs naive d dist (a, n)).isSome = true ↔
        (a ≠ naive ∧ (meanExecTime rs a d n dist).isSome = true ∧
          (meanExecTime rs naive d n dist).isSome = true) := by
  intro rs naive d dist a n
  unfold speedupRelativeToBaseline
  by_cases ha : a = naive
  · simp [ha]
  · cases h1 : meanExecTime rs a d n dist <;>
      cases h2 : meanExecTime rs naive d n dist <;>
      simp [ha, h1, h2]

/-- C8 counterexample: on the input `[rNaive]` the baseline
`CLOSEST_PAIR_NAIVE` has an observation at size 100 (its grouped mean is 10),
yet the speedup result at `(CLOSEST_PAIR_NAIVE, 100)` is absent — not the
1.0 the claim requires — because the loop skips the candidate equal to the
baseline (`continue`, src lines 356-357). -/
theorem speedup_baseline_self_counterexample :
    meanExecTime [rNaive] "CLOSEST_PAIR_NAIVE" "TWO_D" 100 "UNIFORM" = some 10 ∧
    speedupRelativeToBaseline [rNaive] "CLOSEST_PAIR_NAIVE" "TWO_D" "UNIFORM"
      ("CLOSEST_PAIR_NAIVE", 100) = none ∧
    speedupRelativeToBaseline [rNaive] "CLOSEST_PAIR_NAIVE" "TWO_D" "UNIFORM"
      ("CLOSEST_PAIR_NAIVE", 100) ≠ some 1 := by
  refine ⟨?_, ?_, ?_⟩
  · simp [meanExecTime, meanBy, rNaive]
  · simp [speedupRelativeToBaseline]
  · simp [speedupRelativeToBaseline]

/-- C8 amended: `speedupRelativeToBaseline` applied with the baseline
algorithm as the candidate yields no entry at any size — the baseline is
excluded from the speedup result outright (the loop body `continue`s on it),
even at sizes where the baseline has observations. -/
theorem speedup_baseline_excluded_amended :
    ∀ (rs : List Record) (naive d dist : String) (n : Nat),
      speedupRelativeToBaseline rs naive d dist (naive, n) = none := by
  intro rs naive d dist n
  simp [speedupRelativeToBaseline]

/-- C10: for every dimension and algorithm group, if no record in that
dimension and group carries the naive baseline id, the speedup view for the
whole group is silently skipped: the view function returns `none` (no speedup
result for any algorithm of the group), and being a total function it raises
no error and reports no warning. -/
theorem speedup_view_skipped_without_naive :
    ∀ (rs : List Record) (d marker naive : String),
      (∀ r ∈ rs, r.dimension = d → containsStr marker r.algorithm = true →
        r.algorithm ≠ naive) →
      speedupViewForGroup rs d marker naive = none := by
  intro rs d marker naive h
  unfold speedupViewForGroup
  have hany : (rs.filter (fun r => r.dimension == d && containsStr marker r.algorithm)).any
      (fun r => r.algorithm == naive) = false := by
    rw [List.any_eq_false]
    intro r hr
    obtain ⟨hrs, hcond⟩ := List.mem_filter.mp hr
    obtain ⟨hdim, hmark⟩ := Bool.and_eq_true_iff.mp hcond
    have := h r hrs (by simpa using hdim) hmark
    simpa using this
  simp [hany]

/-- C10 witness: a dataset with one KD-tree record and no naive record in the
2D Closest Pair group makes the whole group's speedup view come out skipped. -/
theorem speedup_view_skipped_without_naive_witness :
    speedupViewForGroup [rKd] "TWO_D" "CLOSEST_PAIR" "CLOSEST_PAIR_NAIVE" = none :=
  speedup_view_skipped_without_naive [rKd] "TWO_D" "CLOSEST_PAIR" "CLOSEST_PAIR_NAIVE"
    (by decide)

/-- C3 counterexample: at the record `rZero`, whose execution time is 0 (≤ 0),
the field-derivation step does not fail with a DomainError as claimed — it
succeeds and yields a value (`np.log10(0)` is negative infinity, with only a
RuntimeWarning), contradicting the claim that it fails rather than producing
a value. -/
theorem log_derivation_counterexample :
    rZero.executionTimeMs ≤ 0 ∧
    deriveLogColumn [rZero] = Except.ok [NpLog.negInf] := by
  constructor
  · norm_num [rZero]
  · norm_num [deriveLogColumn, npLog10, rZero]

/-- C3 amended: the field-derivation step never fails: it returns a value for
every record set; per value, `np.log10` yields a finite logarithm for a
positive execution time, negative infinity at zero, and NaN below zero
(numpy emits a RuntimeWarning in the non-positive cases but raises nothing). -/
theorem log_derivation_amended :
    (∀ rs : List Record, ∃ l, deriveLogColumn rs = Except.ok l) ∧
    (∀ x : ℚ, (0 < x → npLog10 x = NpLog.logOf x) ∧
      (x = 0 → npLog10 x = NpLog.negInf) ∧ (x < 0 → npLog10 x = NpLog.nan)) := by
  constructor
  · intro rs
    exact ⟨_, rfl⟩
  · intro x
    refine ⟨?_, ?_, ?_⟩ <;> intro h <;> unfold npLog10 <;>
      split_ifs <;> first | rfl | linarith

/-- C3 amended, witness: the three cases at the concrete inputs 1, 0 and -1. -/
theorem log_derivation_amended_witness :
    npLog10 1 = NpLog.logOf 1 ∧ npLog10 0 = NpLog.negInf ∧ npLog10 (-1) = NpLog.nan :=
  ⟨(log_derivation_amended.2 1).1 (by norm_num),
    (log_derivation_amended.2 0).2.1 rfl,
    (log_derivation_amended.2 (-1)).2.2 (by norm_num)⟩

/-- C1: for every record set, baseline id and non-baseline algorithm, the
speedup result maps each pair `(a, n)` at which both the baseline and `a`
have observations to the ratio of the baseline's mean execution time at `n`
to `a`'s mean execution time at `n`; and on the spec's two-row scenario
`[(CLOSEST_PAIR_NAIVE, TWO_D, 100, UNIFORM, 10, 5),
(CLOSEST_PAIR_KDTREE, TWO_D, 100, UNIFORM, 2, 5)]` with baseline
`CLOSEST_PAIR_NAIVE`, the result is exactly
`{(CLOSEST_PAIR_KDTREE, 100) ↦ 5}`. -/
theorem speedup_relative_to_baseline_spec :
    (∀ (rs : List Record) (naive d dist a : String) (n : Nat) (ta tn : ℚ),
      a ≠ naive →
      meanExecTime rs a d n dist = some ta →
      meanExecTime rs naive d n dist = some tn →
      speedupRelativeToBaseline rs naive d dist (a, n) = some (tn / ta)) ∧
    (∀ (a : String) (n : Nat),
      speedupRelativeToBaseline exRows "CLOSEST_PAIR_NAIVE" "TWO_D" "UNIFORM" (a, n) =
        if a = "CLOSEST_PAIR_KDTREE" ∧ n = 100 then some 5 else none) := by
  constructor
  · intro rs naive d dist a n ta tn ha hta htn
    simp [speedupRelativeToBaseline, ha, hta, htn]
  · intro a n
    by_cases ha : a = "CLOSEST_PAIR_NAIVE"
    · subst ha
      rw [if_neg (by rintro ⟨h1, -⟩; exact absurd h1 (by decide))]
      simp [speedupRelativeToBaseline]
    · by_cases hk : a = "CLOSEST_PAIR_KDTREE"
      · subst hk
        by_cases hn : n = 100
        · subst hn
          rw [if_pos ⟨rfl, rfl⟩]
          simp [speedupRelativeToBaseline, meanExecTime, meanBy, exRows, rNaive, rKd]
          norm_num
        · rw [if_neg (by rintro ⟨-, h2⟩; exact hn h2)]
          simp [speedupRelativeToBaseline, meanExecTime, meanBy, exRows, rNaive, rKd,
            beq_iff_eq, Ne.symm hn]
      · rw [if_neg (by rintro ⟨h1, -⟩; exact hk h1)]
        have ha' : "CLOSEST_PAIR_NAIVE" ≠ a := fun h => ha h.symm
        have hk' : "CLOSEST_PAIR_KDTREE" ≠ a := fun h => hk h.symm
        simp [speedupRelativeToBaseline, meanExecTime, meanBy, exRows, rNaive, rKd,
          beq_iff_eq, ha, ha', hk']

/-- C1 witness: the general clause applied to the spec's two-row scenario:
both means exist at size 100 (2 for the KD-tree and 10 for the baseline) and
the speedup entry is their ratio, 5. -/
theorem speedup_relative_to_baseline_spec_witness :
    speedupRelativeToBaseline exRows "CLOSEST_PAIR_NAIVE" "TWO_D" "UNIFORM"
      ("CLOSEST_PAIR_KDTREE", 100) = some 5 := by
  have h := speedup_relative_to_baseline_spec.1 exRows "CLOSEST_PAIR_NAIVE" "TWO_D"
    "UNIFORM" "CLOSEST_PAIR_KDTREE" 100 2 10 (by decide)
    (by simp [meanExecTime, meanBy, exRows, rNaive, rKd])
    (by simp [meanExecTime, meanBy, exRows, rNaive, rKd])
  rw [h]
  norm_num

/-- C4 counterexample: a run of two views whose first raises and whose second
would succeed produces no output at all — the second view is never attempted,
although in isolation it succeeds (its `Except.toOption` is `some`) — so
per-view errors are not recovered locally and the run does not continue to
the remaining views. -/
theorem per_view_recovery_counterexample :
    mainViews [Except.error "boom", Except.ok (0 : Nat)] = (([] : List Nat), some "boom") ∧
    List.filterMap Except.toOption [Except.error "boom", Except.ok (0 : Nat)] = [0] :=
  ⟨rfl, rfl⟩

/-- C4 amended: `main` wraps the whole sequence of view computations in a
single try/except, so an error in one view is caught at top level and aborts
the run at that view: every view before the first failing one completes and
contributes its output, the first error is the one reported, and no view
after the failing one is computed; when no view fails, all outputs are
produced and no error is reported. -/
theorem per_view_abort_amended :
    (∀ {E A : Type} (pre post : List (Except E A)) (e : E),
      (∀ v ∈ pre, ∃ a, v = Except.ok a) →
      mainViews (pre ++ Except.error e :: post) = (pre.filterMap Except.toOption, some e)) ∧
    (∀ {E A : Type} (vs : List (Except E A)),
      (∀ v ∈ vs, ∃ a, v = Except.ok a) →
      mainViews vs = (vs.filterMap Except.toOption, none)) := by
  constructor
  · intro E A pre post e h
    induction pre with
    | nil => rfl
    | cons v rest ih =>
      obtain ⟨a, ha⟩ := h v (List.mem_cons_self v rest)
      subst ha
      have := ih (fun w hw => h w (List.mem_cons_of_mem _ hw))
      simp [mainViews, this, Except.toOption]
  · intro E A vs h
    induction vs with
    | nil => rfl
    | cons v rest ih =>
      obtain ⟨a, ha⟩ := h v (List.mem_cons_self v rest)
      subst ha
      have := ih (fun w hw => h w (List.mem_cons_of_mem _ hw))
      simp [mainViews, this, Except.toOption]

/-- C4 amended, witness: with a succeeding view before the failing one and a
succeeding view after it, the run yields the first view's output, reports the
error, and omits the third view's output. -/
theorem per_view_abort_amended_witness :
    mainViews [Except.ok (1 : Nat), Except.error "x", Except.ok (2 : Nat)] =
      ([1], some "x") := by
  have h := per_view_abort_amended.1 [Except.ok (1 : Nat)] [Except.ok (2 : Nat)] "x"
    (by intro v hv; simp at hv; exact ⟨1, hv⟩)
  simpa using h

/-- C5 counterexample: on the four-token id `CLOSEST_PAIR_KD_TREE` the source
derives family `CLOSEST_PAIR` (join of the first two tokens), while stripping
the trailing variant suffix (the part after the last separator) would give
`CLOSEST_PAIR_KD`; so the claimed rule does not hold regardless of the number
of separator-delimited tokens. -/
theorem algorithm_family_counterexample :
    algorithmType "CLOSEST_PAIR_KD_TREE" = "CLOSEST_PAIR" ∧
    specAlgorithmFamily "CLOSEST_PAIR_KD_TREE" = "CLOSEST_PAIR_KD" ∧
    algorithmType "CLOSEST_PAIR_KD_TREE" ≠ specAlgorithmFamily "CLOSEST_PAIR_KD_TREE" := by
  refine ⟨?_, ?_, ?_⟩ <;> decide

/-- C5 amended: the derived family is the first underscore token when that
token is `DIAMETER` and otherwise the join of the first two tokens; this
coincides with stripping the trailing variant suffix exactly for ids of the
shapes in the known enumeration — three-token ids not led by `DIAMETER` and
two-token ids led by `DIAMETER` — and in particular for all seven known ids,
but not for arbitrary token counts. -/
theorem algorithm_family_amended :
    (∀ s : String, (tokensOf s).length = 3 → (tokensOf s).headD "" ≠ "DIAMETER" →
      algorithmType s = specAlgorithmFamily s) ∧
    (∀ s : String, (tokensOf s).length = 2 → (tokensOf s).headD "" = "DIAMETER" →
      algorithmType s = specAlgorithmFamily s) ∧
    (algorithmType "CLOSEST_PAIR_NAIVE" = specAlgorithmFamily "CLOSEST_PAIR_NAIVE" ∧
      algorithmType "CLOSEST_PAIR_EFFICIENT" = specAlgorithmFamily "CLOSEST_PAIR_EFFICIENT" ∧
      algorithmType "CLOSEST_PAIR_KDTREE" = specAlgorithmFamily "CLOSEST_PAIR_KDTREE" ∧
      algorithmType "CLOSEST_PAIR_ADAPTIVE" = specAlgorithmFamily "CLOSEST_PAIR_ADAPTIVE" ∧
      algorithmType "DIAMETER_NAIVE" = specAlgorithmFamily "DIAMETER_NAIVE" ∧
      algorithmType "DIAMETER_CONCURRENT" = specAlgorithmFamily "DIAMETER_CONCURRENT" ∧
      algorithmType "DIAMETER_QUICKHULL" = specAlgorithmFamily "DIAMETER_QUICKHULL") := by
  refine ⟨?_, ?_, ?_⟩
  · intro s h3 hd
    obtain ⟨x, y, z, hxyz⟩ := List.length_eq_three.mp h3
    rw [hxyz] at hd
    simp only [algorithmType, specAlgorithmFamily, hxyz]
    rw [if_neg (by simpa using hd)]
    rfl
  · intro s h2 hd
    obtain ⟨x, y, hxy⟩ := List.length_eq_two.mp h2
    rw [hxy] at hd
    simp only [List.headD_cons] at hd
    simp only [algorithmType, specAlgorithmFamily, hxy]
    rw [if_pos (by simpa using hd)]
    simp [joinU, hd]
  · refine ⟨?_, ?_, ?_, ?_, ?_, ?_, ?_⟩ <;> decide

/-- C5 amended, witness: a concrete three-token id not led by `DIAMETER`,
where the source's rule and the suffix-stripping rule agree. -/
theorem algorithm_family_amended_witness :
    algorithmType "ALPHA_BETA_GAMMA" = specAlgorithmFamily "ALPHA_BETA_GAMMA" :=
  algorithm_family_amended.1 "ALPHA_BETA_GAMMA" (by decide) (by decide)

/-- C7: two record sequences that are permutations of each other (same
multiset of rows, different order) give identical aggregated results: every
mean-by-group cell (any grouping predicate, any value column) is equal, the
max-size filter selects the same multiset of rows, every speedup entry is
equal, and every cell of the distribution and heatmap pivot tables is equal. -/
theorem aggregation_order_independence :
    ∀ rs rs' : List Record, rs.Perm rs' →
      (∀ (p : Record → Bool) (v : Record → ℚ), meanBy rs p v = meanBy rs' p v) ∧
      (filterToMaxSize rs).Perm (filterToMaxSize rs') ∧
      (∀ (naive d dist : String) (an : String × Nat),
        speedupRelativeToBaseline rs naive d dist an =
          speedupRelativeToBaseline rs' naive d dist an) ∧
      (∀ d marker a dist : String,
        pivotDistCell rs d marker a dist = pivotDistCell rs' d marker a dist) ∧
      (∀ (d marker a : String) (n : Nat),
        heatmapCell rs d marker a n = heatmapCell rs' d marker a n) := by
  intro rs rs' h
  refine ⟨fun p v => meanBy_perm h p v, filterToMaxSize_perm h, ?_, ?_, ?_⟩
  · intro naive d dist an
    unfold speedupRelativeToBaseline meanExecTime
    rw [meanBy_perm h, meanBy_perm h]
  · intro d marker a dist
    unfold pivotDistCell
    rw [meanBy_perm (filterToMaxSize_perm h)]
  · intro d marker a n
    unfold heatmapCell
    rw [meanBy_perm (h.filter _)]

/-- C7 witness: swapping the two rows of the spec's scenario changes no
aggregated result; shown here for the speedup entry at
(CLOSEST_PAIR_KDTREE, 100). -/
theorem aggregation_order_independence_witness :
    speedupRelativeToBaseline [rNaive, rKd] "CLOSEST_PAIR_NAIVE" "TWO_D" "UNIFORM"
        ("CLOSEST_PAIR_KDTREE", 100) =
      speedupRelativeToBaseline [rKd, rNaive] "CLOSEST_PAIR_NAIVE" "TWO_D" "UNIFORM"
        ("CLOSEST_PAIR_KDTREE", 100) :=
  (aggregation_order_independence [rNaive, rKd] [rKd, rNaive] (by decide)).2.2.1
    "CLOSEST_PAIR_NAIVE" "TWO_D" "UNIFORM" ("CLOSEST_PAIR_KDTREE", 100)

/-- The (index, column) pairs of the distribution-comparison pivot are
duplicate free: within a fixed dimension the projection of the grouped key
`(Algorithm, Dimension, Distribution)` to `(Algorithm, Distribution)` is
injective. -/
theorem pivotKeysDistComp_nodup (rs : List Record) (d marker : String) :
    (pivotKeysDistComp rs d marker).Nodup := by
  unfold pivotKeysDistComp
  apply List.Nodup.map_on
  · rintro ⟨a₁, d₁, t₁⟩ hx ⟨a₂, d₂, t₂⟩ hy hproj
    obtain ⟨-, hc₁⟩ := List.mem_filter.mp hx
    obtain ⟨-, hc₂⟩ := List.mem_filter.mp hy
    obtain ⟨hd₁, -⟩ := Bool.and_eq_true_iff.mp hc₁
    obtain ⟨hd₂, -⟩ := Bool.and_eq_true_iff.mp hc₂
    have hd₁' : d₁ = d := by simpa using hd₁
    have hd₂' : d₂ = d := by simpa using hd₂
    obtain ⟨ha, ht⟩ := Prod.mk.injEq .. ▸ hproj
    simp_all
  · exact List.Nodup.filter _ (List.nodup_dedup _)

/-- The heatmap pivot's (index, column) pairs are duplicate free whenever the
derived friendly name is injective on algorithms containing the group marker:
within a fixed dimension, distinct grouped keys project to distinct
`(Size, AlgorithmName)` pairs. -/
theorem pivotKeysHeatmap_nodup_of_inj (rs : List Record) (d marker : String)
    (hinj : ∀ a b : String, containsStr marker a = true → containsStr marker b = true →
      algName a = algName b → a = b) :
    (pivotKeysHeatmap rs d marker).Nodup := by
  unfold pivotKeysHeatmap
  apply List.Nodup.map_on
  · rintro ⟨a₁, n₁, d₁, s₁⟩ hx ⟨a₂, n₂, d₂, s₂⟩ hy hproj
    obtain ⟨hm₁, hc₁⟩ := List.mem_filter.mp hx
    obtain ⟨hm₂, hc₂⟩ := List.mem_filter.mp hy
    have hn₁ : n₁ = algName a₁ := by
      obtain ⟨r, -, hr⟩ := List.mem_map.mp (List.mem_dedup.mp hm₁)
      unfold keyHeat at hr
      simp only [Prod.mk.injEq] at hr
      obtain ⟨h1, h2, -, -⟩ := hr
      rw [← h1, h2]
    have hn₂ : n₂ = algName a₂ := by
      obtain ⟨r, -, hr⟩ := List.mem_map.mp (List.mem_dedup.mp hm₂)
      unfold keyHeat at hr
      simp only [Prod.mk.injEq] at hr
      obtain ⟨h1, h2, -, -⟩ := hr
      rw [← h1, h2]
    obtain ⟨hd₁, hma₁⟩ := Bool.and_eq_true_iff.mp hc₁
    obtain ⟨hd₂, hma₂⟩ := Bool.and_eq_true_iff.mp hc₂
    have hd₁' : d₁ = d := by simpa using hd₁
    have hd₂' : d₂ = d := by simpa using hd₂
    obtain ⟨hs, hn⟩ := Prod.mk.injEq .. ▸ hproj
    have hs' : s₁ = s₂ := hs
    have hn' : n₁ = n₂ := hn
    have haa : a₁ = a₂ := hinj a₁ a₂ hma₁ hma₂ (by rw [← hn₁, ← hn₂, hn'])
    simp_all
  · exact List.Nodup.filter _ (List.nodup_dedup _)

/-- C9: the mean-aggregation step produces one row per grouping-key tuple
(its key list is duplicate free), and consequently none of the pivots that
follow it — distribution comparison (index `Algorithm`, columns
`Distribution`), dashboard distribution (same keys grouped directly), and the
performance heatmap (index `Size`, columns `AlgorithmName`, for either group
marker the source uses) — ever encounters a duplicate (index, column) pair. -/
theorem grouped_keys_nodup_pivot_safe :
    ∀ (rs : List Record) (d marker : String),
      (groupedKeys (filterToMaxSize rs) keyADDist).Nodup ∧
      (groupedKeys (rs.filter (fun r => r.distribution == "UNIFORM")) keyHeat).Nodup ∧
      (pivotKeysDistComp rs d marker).Nodup ∧
      (pivotKeysDashboard rs d marker).Nodup ∧
      (pivotKeysHeatmap rs d "CLOSEST_PAIR").Nodup ∧
      (pivotKeysHeatmap rs d "DIAMETER").Nodup := by
  intro rs d marker
  refine ⟨List.nodup_dedup _, List.nodup_dedup _, pivotKeysDistComp_nodup rs d marker,
    List.nodup_dedup _, ?_, ?_⟩
  · exact pivotKeysHeatmap_nodup_of_inj rs d "CLOSEST_PAIR"
      (fun a b ha hb h => algName_inj_cp ha hb h)
  · exact pivotKeysHeatmap_nodup_of_inj rs d "DIAMETER"
      (fun a b ha hb h => algName_inj_dm ha hb h)
